import Mathlib

/-
  Formal model of `src/hashmap.c` (putty-X hash table).

  Shallow embedding conventions:
  * A C string pointer (`char *key`) is modelled as a `CKey`: its address
    (`addr`), its content bytes up to but excluding the NUL terminator
    (`content`, no zero bytes), and the bytes that happen to sit in memory
    after the terminator (`pad`, then zeros) — the latter matter because
    `hash()` reads a fixed `sizeof(char*)` = 8 bytes (64-bit build) starting
    at the key pointer, regardless of string length.
  * Pointer comparison (`key != cell->key`) is address equality on `addr`.
  * A value pointer (`char *value`) is modelled as a bare `Nat`; the code
    stores and returns it verbatim and never inspects the pointed-to bytes.
  * A bucket's head cell (embedded in the `data` array, with its `has_entry`
    flag) is `Bucket`; the separately allocated chain nodes reached through
    `next` pointers are the list `Bucket.next : List Entry` (a chain node's
    own `has_entry` field is never read by the code, so it is omitted).
  * `crc32_compute` lives in PuTTY's SSH code, outside this repository, so
    every operation is parameterised by the byte-hash `crc`; a concrete
    CRC-32 modelled from the spec is provided for evaluation.
-/

/-- NUM_BUCKETS constant from hashmap.c. -/
def NUM_BUCKETS : Nat := 256

/-- sizeof(char*) on the 64-bit build: the number of bytes `hash()` feeds to
`crc32_compute` via `sizeof(key)`. -/
def PTR_SIZE : Nat := 8

/-- Model of a C string pointer: address, NUL-terminated content, and the
bytes of memory following the terminator (then zeros). -/
structure CKey where
  addr : Nat
  content : List Nat
  pad : List Nat
deriving DecidableEq

/-- Byte of memory at offset `i` from the key pointer: the string content,
then the NUL terminator, then whatever follows in memory. -/
def CKey.byteAt (k : CKey) (i : Nat) : Nat :=
  if i < k.content.length then k.content.getD i 0
  else if i = k.content.length then 0
  else k.pad.getD (i - k.content.length - 1) 0

/-- The `sizeof(char*)` = 8 bytes starting at the key pointer: exactly what
`crc32_compute((void*)(key), sizeof(key))` reads in `hash()`. -/
def read8 (k : CKey) : List Nat :=
  (List.range PTR_SIZE).map k.byteAt

/-- A separately allocated chain node (`hashmap_entry` reached via `next`). -/
structure Entry where
  key : CKey
  value : Nat
deriving DecidableEq

/-- A bucket head cell: the `hashmap_entry` embedded in the `data` array,
with its chain of collision nodes. -/
structure Bucket where
  key : CKey
  value : Nat
  has_entry : Nat
  next : List Entry
deriving DecidableEq

/-- The all-zero bucket: what a head cell looks like when its memory is
zero-filled (NULL key, NULL next, flag 0). -/
def zeroBucket : Bucket :=
  { key := { addr := 0, content := [], pad := [] }, value := 0, has_entry := 0, next := [] }

/-- struct hashmap from hashmap.c. -/
structure Hashmap where
  data : List Bucket
  num_buckets : Nat
  num_entries : Nat
deriving DecidableEq

/-- Modelled from the spec: `xorN n a b` is bitwise xor of the low `n` bits
of `a` and `b`, used to implement the CRC-32 byte hash that the original
borrows from PuTTY's SSH code (not part of this repository). -/
def xorN : Nat → Nat → Nat → Nat
  | 0, _, _ => 0
  | n + 1, a, b => ((a + b) % 2) + 2 * xorN n (a / 2) (b / 2)

/-- Modelled from the spec: one shift-and-conditionally-xor step of the
reflected CRC-32 with polynomial 0xEDB88320. -/
def crcStep (c : Nat) : Nat :=
  if c % 2 = 1 then xorN 32 (c / 2) 0xEDB88320 else c / 2

/-- Modelled from the spec: `n` iterated CRC bit steps. -/
def crcBits : Nat → Nat → Nat
  | 0, c => c
  | n + 1, c => crcBits n (crcStep c)

/-- Modelled from the spec: the external byte-hashing capability
`hash_bytes(bytes) -> 32-bit unsigned integer`, instantiated as the standard
reflected CRC-32 (polynomial 0xEDB88320, zero initial value as in SSH-1) —
the repository's `crc32_compute` lives in PuTTY's SSH code, not in src/. -/
def crc32_compute (bytes : List Nat) : Nat :=
  bytes.foldl (fun c b => crcBits 8 (xorN 32 c (b % 256))) 0

/-- hash() from hashmap.c: `crc32_compute((void*)(key), sizeof(key)) %
h->num_buckets` — it hashes the first `sizeof(char*)` = 8 bytes of memory at
the key pointer, not the key's full content. `crc` is the external CRC-32. -/
def hash (crc : List Nat → Nat) (h : Hashmap) (key : CKey) : Nat :=
  crc (read8 key) % h.num_buckets

/-- Modelled from the spec: `bucket_index(map, key)` as the spec words it —
`hash_bytes` applied to the key's actual content bytes (its byte sequence
and length), reduced modulo NUM_BUCKETS. Stated separately so it can be
compared with `hash`, the function the code actually computes. -/
def spec_bucket_index (crc : List Nat → Nat) (key : CKey) : Nat :=
  crc key.content % NUM_BUCKETS

/-- Hashmap() constructor from hashmap.c, modelled on the allocator's raw
memory: `snewn(NUM_BUCKETS, hashmap_entry)` returns `garbage` (indeterminate
bucket cells), and `memset(h->data, 0, sizeof(h->data))` zeroes only
`sizeof(hashmap_entry*)` = 8 bytes — exactly the `key` pointer field of
bucket 0 on the 64-bit build — leaving every other field indeterminate. -/
def Hashmap.create (garbage : List Bucket) : Hashmap :=
  { data :=
      match garbage with
      | [] => []
      | b :: rest => { b with key := { addr := 0, content := [], pad := [] } } :: rest
    num_buckets := NUM_BUCKETS
    num_entries := 0 }

/-- The properly zero-initialised fresh map: every one of the NUM_BUCKETS
slots empty and `num_entries = 0` (what `Hashmap.create` yields when the
allocator happens to return all-zero memory). -/
def Hashmap.empty : Hashmap :=
  { data := List.replicate NUM_BUCKETS zeroBucket
    num_buckets := NUM_BUCKETS
    num_entries := 0 }

/-- The chain walk of hashmap_add, given that the head cell is occupied and
its key pointer differs: walk `cell->next` while `key != cell->key`; on a
pointer match overwrite that cell and set `cell->next = NULL` (truncating
whatever followed); otherwise append a fresh node at the tail. -/
def addChain (key : CKey) (value : Nat) : List Entry → List Entry
  | [] => [{ key := key, value := value }]
  | e :: rest =>
    if e.key.addr = key.addr then [{ key := key, value := value }]
    else e :: addChain key value rest

/-- The effect of hashmap_add on the addressed head cell: if it has
`has_entry == 1` and a different key pointer, resolve by the chain walk;
otherwise (empty slot, or head's key pointer equals the new key) the head
cell is overwritten with `has_entry = 1` and `next = NULL`, dropping any
existing chain. -/
def bucketAdd (key : CKey) (value : Nat) (cell : Bucket) : Bucket :=
  if cell.has_entry = 1 ∧ key.addr ≠ cell.key.addr then
    { cell with next := addChain key value cell.next }
  else
    { key := key, value := value, has_entry := 1, next := [] }

/-- hashmap_add() from hashmap.c: index by `hash`, rewrite the addressed
bucket cell by `bucketAdd`. The `num_entries` field is never touched. -/
def hashmap_add (crc : List Nat → Nat) (h : Hashmap) (key : CKey) (value : Nat) : Hashmap :=
  let index := hash crc h key
  let cell := h.data.getD index zeroBucket
  { h with data := h.data.set index (bucketAdd key value cell) }

/-- Outcome of hashmap_get: either the stored value pointer is returned, or
`assert(cell->key == key)` fails and the process aborts. The code has no
not-found result. -/
inductive GetResult where
  | ok (value : Nat)
  | assertFail
deriving DecidableEq

/-- The lookup walk of hashmap_get over a cell (key address `ck`, value
`cv`) and its chain: `while (cell->next != NULL && cell->key != key)`
advance; then `assert(cell->key == key)` and return `cell->value`. -/
def getWalk (kaddr : Nat) (ck : Nat) (cv : Nat) : List Entry → GetResult
  | [] => if ck = kaddr then .ok cv else .assertFail
  | e :: rest =>
    if ck = kaddr then .ok cv else getWalk kaddr e.key.addr e.value rest

/-- hashmap_get() from hashmap.c: index by `hash`, walk the bucket's chain
comparing key pointers, assert on a final mismatch, return `cell->value`. -/
def hashmap_get (crc : List Nat → Nat) (h : Hashmap) (key : CKey) : GetResult :=
  let index := hash crc h key
  let cell := h.data.getD index zeroBucket
  getWalk key.addr cell.key.addr cell.value cell.next

/-- The lookup walk in state-passing form: the heap is threaded through and
returned at every exit point, mirroring that the loop body and both return
sites of hashmap_get perform no store into the map. -/
def getWalkS (m : Hashmap) (kaddr : Nat) (ck : Nat) (cv : Nat) :
    List Entry → Hashmap × GetResult
  | [] => if ck = kaddr then (m, .ok cv) else (m, .assertFail)
  | e :: rest =>
    if ck = kaddr then (m, .ok cv) else getWalkS m kaddr e.key.addr e.value rest

/-- hashmap_get() in state-passing form: same code path as `hashmap_get`,
returning the heap at each exit. -/
def hashmap_get_s (crc : List Nat → Nat) (h : Hashmap) (key : CKey) :
    Hashmap × GetResult :=
  let index := hash crc h key
  let cell := h.data.getD index zeroBucket
  getWalkS h key.addr cell.key.addr cell.value cell.next

/-- Fold a list of (key, value) insertions over hashmap_add. -/
def insertAll (crc : List Nat → Nat) (m : Hashmap) (ps : List (CKey × Nat)) : Hashmap :=
  ps.foldl (fun m p => hashmap_add crc m p.1 p.2) m

/-- Bucket index of a key as hashmap_add/hashmap_get compute it on a map
with `num_buckets = NUM_BUCKETS`. -/
def bidx (crc : List Nat → Nat) (k : CKey) : Nat :=
  crc (read8 k) % NUM_BUCKETS

/-- The keys listed in a bucket: the head cell's key followed by the chain
keys, in chain order. -/
def chainKeys (b : Bucket) : List CKey :=
  b.key :: b.next.map Entry.key

set_option maxRecDepth 8000

/- Concrete inputs used by the evaluation theorems below. Byte lists are
ASCII; keys with the same `content` but different `addr` model two distinct
C string objects holding equal text. -/

def kC1a : CKey := { addr := 100, content := [104,111,115,116,110,97,109,101], pad := [] }

def kC1b : CKey := { addr := 200, content := [104,111,115,116,110,97,109,101], pad := [] }

def kC2 : CKey := { addr := 50, content := [117,115,101,114], pad := [] }

def kC3 : CKey := { addr := 60, content := [97,98,99,100,101,102,103,104,105], pad := [] }

def kC4a : CKey := { addr := 30, content := [111,118,101,114,114,105,100,101], pad := [] }

def kC4b : CKey := { addr := 31, content := [111,118,101,114,114,105,100,101], pad := [] }

def mC4 : Hashmap :=
  hashmap_add crc32_compute (hashmap_add crc32_compute Hashmap.empty kC4a 1) kC4b 2

def kC5 : CKey := { addr := 80, content := [104,104,104,104,104,104,104,104], pad := [] }

def kC6a : CKey := { addr := 40, content := [66,66,66,66,66,66,66,66], pad := [] }

def kC6b : CKey := { addr := 41, content := [66,66,66,66,66,66,66,66], pad := [] }

def mC6 : Hashmap :=
  hashmap_add crc32_compute (hashmap_add crc32_compute Hashmap.empty kC6a 5) kC6b 6

def gBucket : Bucket :=
  { key := { addr := 7, content := [7], pad := [] }, value := 9, has_entry := 1, next := [] }

def mC8 : Hashmap := Hashmap.create (List.replicate NUM_BUCKETS gBucket)

def kC9a : CKey := { addr := 70, content := [65,65,65,65,65,65,65,65,120], pad := [] }

def kC9b : CKey := { addr := 71, content := [65,65,65,65,65,65,65,65,121], pad := [] }

def mC9 : Hashmap :=
  hashmap_add crc32_compute
    (hashmap_add crc32_compute (hashmap_add crc32_compute Hashmap.empty kC9a 1) kC9b 2) kC9a 3

/-- Claim C1: get(key) immediately after insert(key, value) must return that
value with keys matched by content equality. The code instead matches key
pointers by address: after inserting the key object at address 100 with
content "hostname", a get with a second key object at address 200 holding
the very same bytes does not match, falls off the chain, and fails the
assertion (process abort) instead of returning the value. -/
theorem claim_C1_content_equal_lookup_aborts :
    kC1a.content = kC1b.content ∧ kC1a.addr ≠ kC1b.addr ∧
    hashmap_get crc32_compute (hashmap_add crc32_compute Hashmap.empty kC1a 7) kC1b
      = GetResult.assertFail := by decide

/-- Claim C2: get on a key never inserted must return a recoverable
NotFound. The code has no not-found result at all: on a freshly created
(all-zero) map, get("user") walks to a cell whose key is NULL and
`assert(cell->key == key)` fails, aborting the process. -/
theorem claim_C2_get_on_empty_map_aborts :
    hashmap_get crc32_compute Hashmap.empty kC2 = GetResult.assertFail := by decide

/-- Claim C3: bucket_index must be hash_bytes over the key's full content
modulo NUM_BUCKETS. The code computes `crc32_compute(key, sizeof(key))`,
hashing only the first sizeof(char*) = 8 bytes at the key pointer: for the
9-byte key "abcdefghi" the code's bucket (57) differs from the specified
`crc32(content) % NUM_BUCKETS` (1). The in-range half of the claim does
hold: the code's result is always reduced modulo num_buckets. -/
theorem claim_C3_hash_reads_pointer_size_bytes :
    hash crc32_compute Hashmap.empty kC3 < NUM_BUCKETS ∧
    hash crc32_compute Hashmap.empty kC3 ≠ spec_bucket_index crc32_compute kC3 := by decide

/-- Claim C4: re-inserting the same key (by content) must overwrite in
place, leaving only the second value retrievable. With two key objects of
equal content "override" at different addresses, the code's pointer
comparison sees no duplicate: it appends a second entry to the same bucket
(the chain grows to a second cell), and a get presenting the first key
object still returns the first value, not the second. -/
theorem claim_C4_content_duplicate_appends_instead_of_overwriting :
    kC4a.content = kC4b.content ∧ kC4a.addr ≠ kC4b.addr ∧
    hashmap_get crc32_compute mC4 kC4a = GetResult.ok 1 ∧
    hashmap_get crc32_compute mC4 kC4b = GetResult.ok 2 ∧
    (mC4.data.getD (hash crc32_compute mC4 kC4a) zeroBucket).next.length = 1 := by decide

/-- Claim C5, counterexample: insert of a fresh key into the empty map is
claimed to increment `entry_count` by exactly one, but `hashmap_add` never
touches `num_entries`, so it stays 0 instead of becoming 1. -/
theorem claim_C5_counterexample :
    ¬ (hashmap_add crc32_compute Hashmap.empty kC5 9).num_entries
        = Hashmap.empty.num_entries + 1 := by decide

/-- Claim C5 as amended: `hashmap_add` leaves `num_entries` unchanged in
every case — it is set to 0 by the constructor and never incremented,
neither on creating a new entry nor on overwrite. -/
theorem claim_C5_entry_count_never_changes
    (crc : List Nat → Nat) (m : Hashmap) (k : CKey) (v : Nat) :
    (hashmap_add crc m k v).num_entries = m.num_entries := rfl

/-- Claim C6: a bucket chain must never hold two entries with content-equal
keys. Inserting two key objects with equal content "BBBBBBBB" at different
addresses produces a single bucket whose chain lists that same content
twice — the pointer-identity comparison let a content duplicate in. -/
theorem claim_C6_chain_holds_two_content_equal_keys :
    kC6a.content = kC6b.content ∧ kC6a.addr ≠ kC6b.addr ∧
    (chainKeys (mC6.data.getD (hash crc32_compute mC6 kC6a) zeroBucket)).map CKey.content
      = [kC6a.content, kC6a.content] := by decide

/-- Claim C8: create() must return a map with all NUM_BUCKETS slots marked
empty. The constructor's `memset(h->data, 0, sizeof(h->data))` zeroes only
sizeof(pointer) = 8 bytes — the key field of slot 0 — so when the allocator
returns memory whose has_entry bytes are nonzero, the created map still has
slots flagged as holding valid entries (slot 17 shown here). The
`entry_count = 0` and array-length parts of the claim do hold. -/
theorem claim_C8_create_leaves_slots_marked_nonempty :
    (mC8.data.getD 17 zeroBucket).has_entry = 1 ∧
    mC8.num_entries = 0 ∧ mC8.data.length = NUM_BUCKETS := by decide

/-- Claim C9: each bucket's chain must list its colliding keys in insertion
order (a new colliding key appended at the tail, earlier keys kept).
After inserting colliding keys "AAAAAAAAx" and "AAAAAAAAy" (same bucket,
shown by the first conjunct) and then re-inserting the first key, the
overwrite path's unconditional `cell->next = NULL` empties the chain: the
second key is no longer listed at all and looking it up aborts. -/
theorem claim_C9_overwrite_truncates_chain :
    hash crc32_compute Hashmap.empty kC9a = hash crc32_compute Hashmap.empty kC9b ∧
    kC9a.content ≠ kC9b.content ∧
    (mC9.data.getD (hash crc32_compute mC9 kC9b) zeroBucket).next = [] ∧
    hashmap_get crc32_compute mC9 kC9b = GetResult.assertFail := by decide

/-- The state-passing lookup walk returns the heap it was given at every
exit point. -/
theorem getWalkS_eq (m : Hashmap) (kaddr : Nat) (l : List Entry) :
    ∀ ck cv, getWalkS m kaddr ck cv l = (m, getWalk kaddr ck cv l) := by
  induction l with
  | nil =>
    intro ck cv
    by_cases h : ck = kaddr <;> simp [getWalkS, getWalk, h]
  | cons e rest ih =>
    intro ck cv
    by_cases h : ck = kaddr <;> simp [getWalkS, getWalk, h, ih]

/-- Claim C10: hashmap_get is a pure observation — in state-passing form it
returns the map it was given, unchanged in every field, together with the
same result the pure reading of the code computes. -/
theorem claim_C10_get_leaves_map_unchanged
    (crc : List Nat → Nat) (m : Hashmap) (key : CKey) :
    (hashmap_get_s crc m key).1 = m ∧
    (hashmap_get_s crc m key).2 = hashmap_get crc m key := by
  unfold hashmap_get_s hashmap_get
  rw [getWalkS_eq]
  exact ⟨rfl, rfl⟩

/-- getD after set at the same (in-bounds) index yields the new element. -/
theorem hm_getD_set_self {α : Type} (l : List α) (i : Nat) (b d : α) (h : i < l.length) :
    (l.set i b).getD i d = b := by
  induction l generalizing i with
  | nil => simp at h
  | cons x xs ih =>
    cases i with
    | zero => rfl
    | succ n => exact ih n (Nat.lt_of_succ_lt_succ h)

/-- getD after set at a different index is unchanged. -/
theorem hm_getD_set_ne {α : Type} (l : List α) (i j : Nat) (b d : α) (h : i ≠ j) :
    (l.set i b).getD j d = l.getD j d := by
  induction l generalizing i j with
  | nil => rfl
  | cons x xs ih =>
    cases i with
    | zero =>
      cases j with
      | zero => exact absurd rfl h
      | succ m => rfl
    | succ n =>
      cases j with
      | zero => rfl
      | succ m => exact ih n m (fun e => h (by rw [e]))

/-- getD on a replicate list, in bounds, is the replicated element. -/
theorem hm_getD_replicate {α : Type} (n i : Nat) (b d : α) (h : i < n) :
    (List.replicate n b).getD i d = b := by
  induction n generalizing i with
  | zero => exact absurd h (Nat.not_lt_zero i)
  | succ m ih =>
    cases i with
    | zero => rfl
    | succ k => exact ih k (Nat.lt_of_succ_lt_succ h)

/-- The chain node built from a (key, value) pair. -/
def Entry.ofPair (p : CKey × Nat) : Entry :=
  { key := p.1, value := p.2 }

/-- The bucket cell that holds the given (key, value) pairs, first pair in
the head cell and the rest chained in order; no pairs means the untouched
all-zero cell. -/
def bucketOf : List (CKey × Nat) → Bucket
  | [] => zeroBucket
  | p :: rest =>
    { key := p.1, value := p.2, has_entry := 1, next := rest.map Entry.ofPair }

/-- Invariant tying a map state to the insertions performed so far (all with
pairwise distinct key addresses, starting from the zero-initialised map):
every bucket holds exactly the inserted pairs that hash to it, in insertion
order. -/
def HashInv (crc : List Nat → Nat) (m : Hashmap) (done : List (CKey × Nat)) : Prop :=
  m.num_buckets = NUM_BUCKETS ∧ m.data.length = NUM_BUCKETS ∧
  ∀ i, i < NUM_BUCKETS →
    m.data.getD i zeroBucket = bucketOf (done.filter (fun p => bidx crc p.1 == i))

/-- Bucket indices computed by the code are always in range. -/
theorem bidx_lt (crc : List Nat → Nat) (k : CKey) : bidx crc k < NUM_BUCKETS :=
  Nat.mod_lt _ (by decide)

/-- On a map with the standard bucket count, `hash` computes `bidx`. -/
theorem hash_eq_bidx (crc : List Nat → Nat) (m : Hashmap) (k : CKey)
    (h : m.num_buckets = NUM_BUCKETS) : hash crc m k = bidx crc k := by
  show crc (read8 k) % m.num_buckets = bidx crc k
  rw [h]
  rfl

/-- When no cell of the chain holds the key's address, the add walk appends
a fresh node at the tail and keeps everything else. -/
theorem addChain_of_not_mem (k : CKey) (v : Nat) (l : List Entry)
    (h : ∀ e ∈ l, e.key.addr ≠ k.addr) :
    addChain k v l = l ++ [{ key := k, value := v }] := by
  induction l with
  | nil => rfl
  | cons e rest ih =>
    have hne : e.key.addr ≠ k.addr := h e (List.mem_cons_self e rest)
    simp only [addChain, if_neg hne, List.cons_append, List.cons.injEq, true_and]
    exact ih (fun e' he' => h e' (List.mem_cons_of_mem e he'))

/-- Adding a fresh-address key to the bucket that holds pairs `l` appends
the new pair at the tail. -/
theorem bucketAdd_bucketOf (k : CKey) (v : Nat) (l : List (CKey × Nat))
    (hfresh : ∀ p ∈ l, p.1.addr ≠ k.addr) :
    bucketAdd k v (bucketOf l) = bucketOf (l ++ [(k, v)]) := by
  cases l with
  | nil => rfl
  | cons q rest =>
    have hq : q.1.addr ≠ k.addr := hfresh q (List.mem_cons_self q rest)
    have hchain : ∀ e ∈ rest.map Entry.ofPair, e.key.addr ≠ k.addr := by
      intro e he
      obtain ⟨p, hp, rfl⟩ := List.mem_map.1 he
      exact hfresh p (List.mem_cons_of_mem q hp)
    have hlhs : bucketOf (q :: rest)
        = { key := q.1, value := q.2, has_entry := 1, next := rest.map Entry.ofPair } := rfl
    have hrhs : bucketOf ((q :: rest) ++ [(k, v)])
        = { key := q.1, value := q.2, has_entry := 1,
            next := (rest ++ [(k, v)]).map Entry.ofPair } := rfl
    rw [hlhs, hrhs]
    unfold bucketAdd
    rw [if_pos (And.intro rfl (Ne.symm hq))]
    rw [addChain_of_not_mem k v _ hchain, List.map_append]
    rfl

/-- One insert of a fresh-address key extends the invariant: its bucket
gains the pair at the chain tail, all other buckets are untouched. -/
theorem HashInv_add (crc : List Nat → Nat) (m : Hashmap) (done : List (CKey × Nat))
    (k : CKey) (v : Nat) (hInv : HashInv crc m done)
    (hfresh : ∀ p ∈ done, p.1.addr ≠ k.addr) :
    HashInv crc (hashmap_add crc m k v) (done ++ [(k, v)]) := by
  obtain ⟨hnb, hlen, hbuck⟩ := hInv
  have hidx : hash crc m k = bidx crc k := hash_eq_bidx crc m k hnb
  have hdata : (hashmap_add crc m k v).data
      = m.data.set (bidx crc k) (bucketAdd k v (m.data.getD (bidx crc k) zeroBucket)) := by
    show m.data.set (hash crc m k) (bucketAdd k v (m.data.getD (hash crc m k) zeroBucket)) = _
    rw [hidx]
  refine ⟨hnb, ?_, ?_⟩
  · rw [hdata, List.length_set]
    exact hlen
  · intro i hi
    rw [hdata]
    by_cases hij : bidx crc k = i
    · subst hij
      rw [hm_getD_set_self _ _ _ _ (by rw [hlen]; exact bidx_lt crc k)]
      rw [hbuck (bidx crc k) (bidx_lt crc k), List.filter_append]
      simp only [List.filter_cons, List.filter_nil, beq_self_eq_true, if_true]
      exact bucketAdd_bucketOf k v _ (fun p hp => hfresh p (List.mem_of_mem_filter hp))
    · rw [hm_getD_set_ne _ _ _ _ _ hij]
      rw [hbuck i hi, List.filter_append]
      have hne : (bidx crc k == i) = false := by
        simp [hij]
      simp [List.filter_cons, hne]

/-- Folding fresh-address inserts over a state satisfying the invariant
yields the invariant for the extended insertion history. -/
theorem insertAll_HashInv (crc : List Nat → Nat) :
    ∀ (ps done : List (CKey × Nat)) (m : Hashmap),
      HashInv crc m done →
      ((done ++ ps).map (fun p => p.1.addr)).Nodup →
      HashInv crc (insertAll crc m ps) (done ++ ps) := by
  intro ps
  induction ps with
  | nil =>
    intro done m hInv _
    simpa using hInv
  | cons q rest ih =>
    intro done m hInv hnd
    obtain ⟨k, v⟩ := q
    have hfresh : ∀ p ∈ done, p.1.addr ≠ k.addr := by
      intro p hp heq
      have h1 : ((done ++ (k, v) :: rest).map fun p => p.1.addr)
          = done.map (fun p => p.1.addr)
            ++ k.addr :: rest.map (fun p => p.1.addr) := by
        simp
      rw [h1] at hnd
      exact List.disjoint_of_nodup_append hnd
        (List.mem_map.2 ⟨p, hp, heq⟩) (List.mem_cons_self _ _)
    have hInv' := HashInv_add crc m done k v hInv hfresh
    have heq : insertAll crc m ((k, v) :: rest)
        = insertAll crc (hashmap_add crc m k v) rest := rfl
    rw [heq]
    have hnd' : (((done ++ [(k, v)]) ++ rest).map fun p => p.1.addr).Nodup := by
      simpa [List.append_assoc] using hnd
    have hres := ih (done ++ [(k, v)]) (hashmap_add crc m k v) hInv' hnd'
    simpa [List.append_assoc] using hres

/-- Looking up any pair of a bucket whose stored pairs have pairwise
distinct key addresses returns that pair's value. -/
theorem getWalk_bucketOf (p : CKey × Nat) :
    ∀ l : List (CKey × Nat), p ∈ l → ((l.map fun r => r.1.addr).Nodup) →
      getWalk p.1.addr (bucketOf l).key.addr (bucketOf l).value (bucketOf l).next
        = GetResult.ok p.2 := by
  intro l
  induction l with
  | nil =>
    intro h _
    simp at h
  | cons q rest ih =>
    intro hmem hnd
    have hbq : bucketOf (q :: rest)
        = { key := q.1, value := q.2, has_entry := 1, next := rest.map Entry.ofPair } := rfl
    rw [hbq]
    by_cases hpq : q.1.addr = p.1.addr
    · rcases List.mem_cons.1 hmem with hpq' | hprest
      · subst hpq'
        cases h' : rest.map Entry.ofPair with
        | nil => simp [getWalk]
        | cons e es => simp [getWalk]
      · exfalso
        have h1 : q.1.addr ∈ rest.map fun r => r.1.addr := by
          rw [hpq]
          exact List.mem_map.2 ⟨p, hprest, rfl⟩
        exact (List.nodup_cons.1 (by simpa using hnd)).1 h1
    · rcases List.mem_cons.1 hmem with hpq' | hprest
      · exfalso
        apply hpq
        rw [hpq']
      · cases rest with
        | nil => simp at hprest
        | cons r rest2 =>
          have hnd2 : ((r :: rest2).map fun x => x.1.addr).Nodup :=
            (List.nodup_cons.1 (by simpa using hnd)).2
          have hres := ih hprest hnd2
          simpa [getWalk, hpq, bucketOf, Entry.ofPair] using hres

/-- On a map satisfying the invariant for insertion history `ps` with
pairwise distinct key addresses, get succeeds on every inserted pair. -/
theorem hashmap_get_of_HashInv (crc : List Nat → Nat) (m : Hashmap)
    (ps : List (CKey × Nat)) (hInv : HashInv crc m ps)
    (hnd : (ps.map fun p => p.1.addr).Nodup)
    (p : CKey × Nat) (hp : p ∈ ps) :
    hashmap_get crc m p.1 = GetResult.ok p.2 := by
  obtain ⟨hnb, hlen, hbuck⟩ := hInv
  have hidx : hash crc m p.1 = bidx crc p.1 := hash_eq_bidx crc m p.1 hnb
  have hg : hashmap_get crc m p.1
      = getWalk p.1.addr (m.data.getD (hash crc m p.1) zeroBucket).key.addr
          (m.data.getD (hash crc m p.1) zeroBucket).value
          (m.data.getD (hash crc m p.1) zeroBucket).next := rfl
  rw [hg, hidx, hbuck (bidx crc p.1) (bidx_lt crc p.1)]
  apply getWalk_bucketOf
  · exact List.mem_filter.2 ⟨hp, by simp⟩
  · exact hnd.sublist ((List.filter_sublist _).map _)

/-- Claim C7: inserting any number of distinct keys — distinct content, and
therefore (distinct C string objects) distinct addresses — into the fresh
zero-initialised map leaves every one of them retrievable with its correct
value, whether or not they collide: this covers two content-distinct keys
hashing to the same bucket as the two-element instance, and 300 distinct
keys exceeding the 256 buckets as a 300-element instance. -/
theorem claim_C7_distinct_keys_all_retrievable
    (crc : List Nat → Nat) (ps : List (CKey × Nat))
    (haddr : (ps.map fun p => p.1.addr).Nodup)
    (hcont : (ps.map fun p => p.1.content).Nodup) :
    ∀ p ∈ ps, hashmap_get crc (insertAll crc Hashmap.empty ps) p.1
      = GetResult.ok p.2 := by
  have hInv0 : HashInv crc Hashmap.empty [] := by
    refine ⟨rfl, by simp [Hashmap.empty], ?_⟩
    intro i hi
    rw [show Hashmap.empty.data = List.replicate NUM_BUCKETS zeroBucket from rfl]
    rw [hm_getD_replicate _ _ _ _ hi]
    rfl
  have hInv := insertAll_HashInv crc ps [] Hashmap.empty hInv0 (by simpa using haddr)
  intro p hp
  exact hashmap_get_of_HashInv crc _ ps (by simpa using hInv) haddr p hp

/-- Three concrete distinct keys, the first two colliding under the chosen
hash, used to instantiate claim C7. -/
def psW : List (CKey × Nat) :=
  [({ addr := 1, content := [10], pad := [] }, 100),
   ({ addr := 2, content := [20], pad := [] }, 200),
   ({ addr := 3, content := [10, 20], pad := [] }, 300)]

/-- Witness for claim C7: with a concrete hash sending every key to bucket
0, the three distinct keys of `psW` are all chained in one bucket and each
lookup returns its own value. -/
theorem claim_C7_witness :
    hashmap_get (fun _ => 0) (insertAll (fun _ => 0) Hashmap.empty psW)
        { addr := 2, content := [20], pad := [] } = GetResult.ok 200 :=
  claim_C7_distinct_keys_all_retrievable (fun _ => 0) psW (by decide) (by decide)
    ({ addr := 2, content := [20], pad := [] }, 200) (by decide)
